import Mathlib

/-!
Verification development for the react-calculator repository.

The component src/components/Calculator.jsx is shallowly embedded below.
JavaScript strings are modelled as lists of characters (`List Char`);
the external mathjs evaluator is out of scope per the specification and
is modelled as an abstract function from expression strings to optional
rational numbers (`none` models a thrown evaluation error).  The state
held by the React component (the `showResult` flag, the `display`
string, the `history` array and the `partialResult` string) is an
explicit record, and each UI event (button press, history click) is a
pure state transformer; the partial-result `useEffect`, which React
runs after every state change, is composed after each event.
-/

/-- The state of the Calculator component: the `showResult` flag, the
`display` string (the current expression or final result), the
`history` array of past "expression = result" strings, and the
`partialResult` string holding the live preview. -/
structure CalcState where
  showResult : Bool
  display : List Char
  history : List (List Char)
  partialResult : List Char
deriving Repr, DecidableEq

/-- The initial state of the component: all `useState` initializers,
i.e. `showResult = false`, empty display, empty history, empty partial
result. -/
def initState : CalcState := ⟨false, [], [], []⟩

/-- Function `isOperator` from Calculator.jsx: membership of the pressed value
in the list of the five basic binary operator labels. -/
def isOperator (value : List Char) : Bool :=
  decide (value ∈ [['%'], ['*'], ['/'], ['-'], ['+']])

/-- JavaScript `s.slice(-1)`: the one-character string holding the last
character of `s`, or the empty string when `s` is empty. -/
def sliceLast (s : List Char) : List Char := s.drop (s.length - 1)

/-- JavaScript `display.endsWith(".")`: whether the last character of
the string is a decimal point. -/
def endsWithDot (s : List Char) : Bool := decide (sliceLast s = ['.'])

/-- The decimal digit character for `k` (used when printing numbers;
`k` is always below 10 at call sites). -/
def digitChar (k : Nat) : Char :=
  if k = 0 then '0' else if k = 1 then '1' else if k = 2 then '2'
  else if k = 3 then '3' else if k = 4 then '4' else if k = 5 then '5'
  else if k = 6 then '6' else if k = 7 then '7' else if k = 8 then '8'
  else '9'

/-- Decimal digit emitter for natural numbers, with explicit fuel (the
fuel is always at least the number of digits at call sites). -/
def natToCharsCore : Nat → Nat → List Char
  | 0, _ => []
  | fuel + 1, n =>
    if n = 0 then [] else natToCharsCore fuel (n / 10) ++ [digitChar (n % 10)]

/-- The decimal digit string of a natural number, as JavaScript
`Number.prototype.toString` prints a nonnegative integer. -/
def natToChars (n : Nat) : List Char :=
  if n = 0 then ['0'] else natToCharsCore n n

/-- The value of `parseFloat(result.toFixed(3))` scaled by 1000: the
evaluation result rounded to 3 decimal places (round half away from
zero, the rounding `toFixed` performs), as an integer count of
thousandths.  The rounding is computed on the numerator and denominator
of the exact rational: for a rational n / d with n ≥ 0 and d > 0,
rounding 1000·n/d half up is ⌊(2000·n + d) / (2·d)⌋, and both integer
divisions below have nonnegative arguments, where every
integer-division convention agrees. -/
def round3 (q : ℚ) : ℤ :=
  if 0 ≤ q.num then (2000 * q.num + (q.den : ℤ)) / (2 * (q.den : ℤ))
  else -((2000 * (-q.num) + (q.den : ℤ)) / (2 * (q.den : ℤ)))

/-- Drop the trailing zero characters of a digit string (JavaScript
numeric-to-string conversion prints no trailing fractional zeros). -/
def trimZeros (l : List Char) : List Char :=
  (l.reverse.dropWhile (fun c => c = '0')).reverse

/-- Print a count of thousandths the way JavaScript prints the number
`m / 1000`: optional minus sign, integer part, then a decimal point and
the fractional digits with trailing zeros removed (omitted entirely
when the fractional part is zero). -/
def thousandthsToChars (m : ℤ) : List Char :=
  let a := m.natAbs
  let ip := a / 1000
  let fr := a % 1000
  let frDigits :=
    trimZeros [digitChar (fr / 100), digitChar (fr / 10 % 10), digitChar (fr % 10)]
  (if m < 0 then ['-'] else []) ++ natToChars ip ++
    (if frDigits.isEmpty then [] else '.' :: frDigits)

/-- The value of `parseFloat(result.toFixed(3)).toString()` from Calculator.jsx: the
string form of the evaluation result rounded to 3 decimal places, with
trailing zeros dropped. -/
def numToChars (q : ℚ) : List Char := thousandthsToChars (round3 q)

/-- Function `calculateResult` from Calculator.jsx: when the display is
non-empty, evaluate it; on success append "display = result" to the
history, show the rounded result and set the result flag; on an
evaluator error set the display to the literal string "Error" (the
error is caught, never propagated). -/
def calculateResult (ev : List Char → Option ℚ) (s : CalcState) : CalcState :=
  if s.display.length ≠ 0 then
    match ev s.display with
    | some result =>
      { s with
        history := s.history ++ [s.display ++ " = ".data ++ numToChars result]
        display := numToChars result
        showResult := true }
    | none => { s with display := "Error".data }
  else s

/-- Function `handleButton` from Calculator.jsx: every press first resets the
result flag, then the pressed value is dispatched: AC clears, C drops
the last character, "=" finalizes, function keys and parentheses
append (functions append a trailing "("), binary operators are ignored
when the display is empty or already ends in an operator, a decimal
point is ignored when the display already ends in one, and every other
value is appended unconditionally. -/
def handleButton (ev : List Char → Option ℚ) (s : CalcState) (value : List Char) :
    CalcState :=
  if value = "AC".data then
    { s with showResult := false, display := [] }
  else if value = "C".data then
    { s with showResult := false, display := s.display.dropLast }
  else if value = "=".data then
    calculateResult ev { s with showResult := false }
  else if value ∈ ["sin".data, "cos".data, "tan".data, "√".data, "(".data, ")".data] then
    if value = "√".data then
      { s with showResult := false, display := s.display ++ "sqrt(".data }
    else if value ∈ ["sin".data, "cos".data, "tan".data] then
      { s with showResult := false, display := s.display ++ value ++ "(".data }
    else
      { s with showResult := false, display := s.display ++ value }
  else if isOperator value then
    if s.display = [] ∨ isOperator (sliceLast s.display) then
      { s with showResult := false }
    else
      { s with showResult := false, display := s.display ++ value }
  else if value = ".".data then
    if endsWithDot s.display then
      { s with showResult := false }
    else
      { s with showResult := false, display := s.display ++ value }
  else
    { s with showResult := false, display := s.display ++ value }

/-- The partial-result `useEffect` from Calculator.jsx: when the display
is empty or the final result is shown, the partial result is cleared;
otherwise the display is evaluated and the partial result is the
rounded value on success and empty on an evaluator error (the error is
silently suppressed). -/
def partialEffect (ev : List Char → Option ℚ) (s : CalcState) : CalcState :=
  if s.display.isEmpty || s.showResult then
    { s with partialResult := [] }
  else
    match ev s.display with
    | some result => { s with partialResult := numToChars result }
    | none => { s with partialResult := [] }

/-- A full button-press event: `handleButton` followed by the
partial-result effect that React runs on the updated state. -/
def pressKey (ev : List Char → Option ℚ) (s : CalcState) (value : List Char) :
    CalcState :=
  partialEffect ev (handleButton ev s value)

/-- The separator test for `item.split(" = ")`: whether the string
starts with the three-character separator " = ". -/
def sepHere (l : List Char) : Bool :=
  match l with
  | a :: b :: c :: _ => decide (a = ' ') && decide (b = '=') && decide (c = ' ')
  | _ => false

/-- JavaScript `item.split(" = ")[0]`: the longest prefix of the string
that stops at the first occurrence of the separator " = " (the whole
string when the separator does not occur). -/
def splitFirst : List Char → List Char
  | [] => []
  | c :: rest => if sepHere (c :: rest) then [] else c :: splitFirst rest

/-- Function `handleHistoryClick` from Calculator.jsx: restore the expression
part of a clicked history item into the display and leave result mode. -/
def handleHistoryClick (s : CalcState) (item : List Char) : CalcState :=
  { s with display := splitFirst item, showResult := false }

/-- A full history-click event: `handleHistoryClick` followed by the
partial-result effect that React runs on the updated state. -/
def selectHistory (ev : List Char → Option ℚ) (s : CalcState) (item : List Char) :
    CalcState :=
  partialEffect ev (handleHistoryClick s item)

/-- Modelled from the spec: the keypad labels of the calculator.  The
file src/utils/constants.js holding the `keys` array is not part of the
provided sources; section 4.1 of the specification enumerates the key
classes (AC, C, =, sin, cos, tan, √, parentheses, the binary operators
%, *, /, -, +, the decimal point, and the digits). -/
def keypad : List (List Char) :=
  ["AC".data, "C".data, "%".data, "/".data, "sin".data, "cos".data,
   "tan".data, "√".data, "(".data, ")".data, "*".data, "-".data,
   "+".data, ".".data, "=".data, "0".data, "1".data, "2".data,
   "3".data, "4".data, "5".data, "6".data, "7".data, "8".data,
   "9".data]

/-- A session event: a keypad button press or a click on a history
item. -/
inductive CalcEvent where
  | key (value : List Char)
  | histClick (item : List Char)

/-- One UI event applied to the state. -/
def step (ev : List Char → Option ℚ) (s : CalcState) : CalcEvent → CalcState
  | .key v => pressKey ev s v
  | .histClick item => selectHistory ev s item

/-- The states reachable from the initial state by keypad presses and
clicks on items currently in the history. -/
inductive Reachable (ev : List Char → Option ℚ) : CalcState → Prop where
  | init : Reachable ev initState
  | key {s v} : Reachable ev s → v ∈ keypad → Reachable ev (pressKey ev s v)
  | histClick {s item} : Reachable ev s → item ∈ s.history →
      Reachable ev (selectHistory ev s item)

/-- Whether a character is one of the five binary operator characters. -/
def isOpChar (c : Char) : Bool := decide (c ∈ ['%', '*', '/', '-', '+'])

/-- Whether a character is one of the binary operator characters other
than the minus sign. -/
def hardOpChar (c : Char) : Bool := decide (c ∈ ['%', '*', '/', '+'])

/-- Whether a character is a decimal point. -/
def isDotChar (c : Char) : Bool := decide (c = '.')

/-- Whether a character is a space. -/
def isSpaceChar (c : Char) : Bool := decide (c = ' ')

/-- A character that is neither an operator, nor a decimal point, nor a
space (digits, letters, parentheses). -/
def plainChar (c : Char) : Bool := !isOpChar c && !isDotChar c && !isSpaceChar c

/-- Every character of the string is plain. -/
def allPlain (l : List Char) : Bool := l.all plainChar

/-- The string contains no space character. -/
def noSpace (l : List Char) : Bool := l.all (fun c => !isSpaceChar c)

/-- No two adjacent characters of the string both satisfy `p`. -/
def noTwoAdjacent (p : Char → Bool) : List Char → Bool
  | [] => true
  | [_] => true
  | a :: b :: rest => !(p a && p b) && noTwoAdjacent p (b :: rest)

/-- The string does not start with an operator character other than a
minus sign. -/
def headOK : List Char → Bool
  | [] => true
  | c :: _ => !hardOpChar c

/-- The string does not start with any binary operator character. -/
def headStrictOK : List Char → Bool
  | [] => true
  | c :: _ => !isOpChar c

/-- The expression invariant claimed in the specification, section 3:
the string never starts with a binary operator, never contains two
consecutive binary operators, and never contains two consecutive
decimal points. -/
def specExprInvariant (d : List Char) : Bool :=
  headStrictOK d && noTwoAdjacent isOpChar d && noTwoAdjacent isDotChar d

/-- The amended expression invariant: as claimed, except that the
string may start with a minus sign (the sign of a negative finalized
result). -/
def specExprInvariantAmended (d : List Char) : Bool :=
  headOK d && noTwoAdjacent isOpChar d && noTwoAdjacent isDotChar d

/-- The internal display invariant carried through the reachability
induction: the amended expression invariant plus space-freeness (needed
to parse history items back). -/
def dispInv (d : List Char) : Bool :=
  specExprInvariantAmended d && noSpace d

/-- The full state invariant: the display satisfies the display
invariant and the expression part of every history item does too. -/
def StateInv (s : CalcState) : Prop :=
  dispInv s.display = true ∧ ∀ item ∈ s.history, dispInv (splitFirst item) = true

/-- Spec-side definition (section 4.3 of the specification) of the
derived partial value: empty in result mode or on an empty expression,
otherwise the evaluation result rounded to 3 decimals on success and
empty on failure. -/
def specPartialValue (ev : List Char → Option ℚ) (s : CalcState) : List Char :=
  if s.showResult || s.display.isEmpty then []
  else
    match ev s.display with
    | some r => numToChars r
    | none => []

/-- Spec-side definition (section 4.1 of the specification) of the text
a key appends when accepted: function keys append their name followed
by "(", the square root key appends "sqrt(", and every other appending
key appends its own label.  The editing keys AC, C and = append no
text. -/
def specKeyText (v : List Char) : List Char :=
  if v = "AC".data ∨ v = "C".data ∨ v = "=".data then []
  else if v ∈ ["sin".data, "cos".data, "tan".data] then v ++ "(".data
  else if v = "√".data then "sqrt(".data
  else v

/-- Whether the last character of the accumulated string is a binary
operator (spec wording: "its last character is not itself a binary
operator"). -/
def specLastIsOperator (acc : List Char) : Bool :=
  match acc.getLast? with
  | some c => isOpChar c
  | none => false

/-- Spec-side definition of key acceptance (section 8 of the
specification): a binary operator is rejected when the accumulated
string is empty or already ends in an operator, a decimal point is
rejected when the accumulated string already ends in a decimal point,
and every other key is accepted. -/
def specAccepts (acc v : List Char) : Bool :=
  if isOperator v then !acc.isEmpty && !specLastIsOperator acc
  else if v = ".".data then
    match acc.getLast? with
    | some c => !isDotChar c
    | none => true
  else true

/-- Spec-side fold: the concatenation of the texts appended by the
accepted keys, starting from a given accumulated string. -/
def specConcatFrom (acc : List Char) : List (List Char) → List Char
  | [] => acc
  | v :: rest =>
    specConcatFrom (if specAccepts acc v then acc ++ specKeyText v else acc) rest

/-- Spec-side definition of the claimed display contents after a
sequence of key presses: the concatenation of the texts appended by the
accepted keys in order, with rejected keys omitted. -/
def specConcat (keys : List (List Char)) : List Char := specConcatFrom [] keys

/-- The keypad without the finalizing key "=" and the editing keys "AC"
and "C": the keys whose only effect on the display is appending text. -/
def appendingKeys : List (List Char) :=
  ["%".data, "/".data, "sin".data, "cos".data, "tan".data, "√".data,
   "(".data, ")".data, "*".data, "-".data, "+".data, ".".data,
   "0".data, "1".data, "2".data, "3".data, "4".data, "5".data,
   "6".data, "7".data, "8".data, "9".data]

/-- A concrete evaluator used to instantiate the universally quantified
theorems below, agreeing with the external mathjs evaluator on the
handful of expressions involved: complete arithmetic expressions
evaluate to their value and incomplete ones (trailing operator) or
non-expressions fail. -/
def evA : List Char → Option ℚ := fun l =>
  if l = "50+2".data then some 52
  else if l = "50".data then some 50
  else if l = "5".data then some 5
  else if l = "52".data then some 52
  else if l = "1-5".data then some (-4)
  else if l = "1-".data then none
  else if l = "1".data then some 1
  else if l = "12".data then some 12
  else if l = "10/3".data then some (mkRat 10 3)
  else none

/-- The state reached from the initial state by pressing the keys 5, 0,
+, 2 under the evaluator evA: the display holds "50+2". -/
def s9 : CalcState :=
  pressKey evA (pressKey evA (pressKey evA (pressKey evA initState
    "5".data) "0".data) "+".data) "2".data

/-- The state reached from the initial state by pressing the keys 1, -,
5, = under the evaluator evA: the finalized display holds "-4". -/
def sNeg : CalcState :=
  pressKey evA (pressKey evA (pressKey evA (pressKey evA initState
    "1".data) "-".data) "5".data) "=".data

/-- The state reached from the initial state by pressing the keys 5, 2,
= under the evaluator evA: the finalized display holds "52" and the
result flag is set. -/
def sRes : CalcState :=
  pressKey evA (pressKey evA (pressKey evA initState
    "5".data) "2".data) "=".data

theorem partialEffect_display (ev : List Char → Option ℚ) (s : CalcState) :
    (partialEffect ev s).display = s.display := by
  unfold partialEffect
  split
  · rfl
  · split <;> rfl

theorem partialEffect_history (ev : List Char → Option ℚ) (s : CalcState) :
    (partialEffect ev s).history = s.history := by
  unfold partialEffect
  split
  · rfl
  · split <;> rfl

theorem partialEffect_showResult (ev : List Char → Option ℚ) (s : CalcState) :
    (partialEffect ev s).showResult = s.showResult := by
  unfold partialEffect
  split
  · rfl
  · split <;> rfl

theorem isOperator_singleton (c : Char) : isOperator [c] = isOpChar c := by
  simp [isOperator, isOpChar]

theorem hardOpChar_of_isOpChar (c : Char) (h : hardOpChar c = true) :
    isOpChar c = true := by
  simp [hardOpChar] at h
  simp [isOpChar]
  tauto

theorem plainChar_split (c : Char) (h : plainChar c = true) :
    isOpChar c = false ∧ isDotChar c = false ∧ isSpaceChar c = false := by
  simp [plainChar] at h
  exact ⟨h.1.1, h.1.2, h.2⟩

theorem sliceLast_of_getLast? (d : List Char) (x : Char) (h : d.getLast? = some x) :
    sliceLast d = [x] := by
  induction d with
  | nil => simp at h
  | cons a rest ih =>
    cases rest with
    | nil =>
      simp at h
      simp [sliceLast, h]
    | cons b rest2 =>
      rw [List.getLast?_cons_cons] at h
      have := ih h
      simp only [sliceLast, List.length_cons] at this ⊢
      simpa [List.drop_succ_cons] using this

theorem sliceLast_nil : sliceLast [] = [] := rfl

theorem noTwoAdjacent_of_allNot (p : Char → Bool) :
    ∀ l : List Char, l.all (fun c => !p c) = true → noTwoAdjacent p l = true := by
  intro l
  induction l with
  | nil => intro _; rfl
  | cons a rest ih =>
    intro h
    simp only [List.all_cons, Bool.and_eq_true] at h
    cases rest with
    | nil => rfl
    | cons b rest2 =>
      have hb : p b = false := by
        have := h.2
        simp only [List.all_cons, Bool.and_eq_true] at this
        simpa using this.1
      simp [noTwoAdjacent, hb, ih h.2]

theorem noTwoAdjacent_append_allNot (p : Char → Bool) :
    ∀ d t : List Char, noTwoAdjacent p d = true → t.all (fun c => !p c) = true →
      noTwoAdjacent p (d ++ t) = true := by
  intro d
  induction d with
  | nil => intro t _ ht; simpa using noTwoAdjacent_of_allNot p t ht
  | cons a rest ih =>
    intro t hd ht
    cases rest with
    | nil =>
      cases t with
      | nil => rfl
      | cons c t2 =>
        have hc : p c = false := by
          simp only [List.all_cons, Bool.and_eq_true] at ht
          simpa using ht.1
        simp [noTwoAdjacent, hc, noTwoAdjacent_of_allNot p (c :: t2) ht]
    | cons b rest2 =>
      simp only [noTwoAdjacent, Bool.and_eq_true] at hd
      have := ih t hd.2 ht
      simp only [List.cons_append] at this ⊢
      simp [noTwoAdjacent, hd.1, this]

theorem noTwoAdjacent_append_one (p : Char → Bool) :
    ∀ d : List Char, ∀ c : Char, noTwoAdjacent p d = true →
      (∀ x, d.getLast? = some x → (p x && p c) = false) →
      noTwoAdjacent p (d ++ [c]) = true := by
  intro d
  induction d with
  | nil => intro c _ _; rfl
  | cons a rest ih =>
    intro c hd hlast
    cases rest with
    | nil =>
      have := hlast a (by simp)
      simp [noTwoAdjacent, this]
    | cons b rest2 =>
      simp only [noTwoAdjacent, Bool.and_eq_true] at hd
      have hrec := ih c hd.2 (fun x hx => hlast x (by rw [List.getLast?_cons_cons]; exact hx))
      simp only [List.cons_append] at hrec ⊢
      simp [noTwoAdjacent, hd.1, hrec]

theorem noTwoAdjacent_dropLast (p : Char → Bool) :
    ∀ d : List Char, noTwoAdjacent p d = true →
      noTwoAdjacent p d.dropLast = true := by
  intro d
  induction d with
  | nil => intro _; rfl
  | cons a rest ih =>
    intro hd
    cases rest with
    | nil => rfl
    | cons b rest2 =>
      simp only [noTwoAdjacent, Bool.and_eq_true] at hd
      have hrec := ih hd.2
      cases rest2 with
      | nil => rfl
      | cons e rest3 =>
        simp only [List.dropLast_cons₂] at hrec ⊢
        simp [noTwoAdjacent, hd.1, hrec]

theorem plainChar_digitChar (k : Nat) : plainChar (digitChar k) = true := by
  unfold digitChar
  split_ifs <;> rfl

theorem allPlain_natToCharsCore (fuel : Nat) :
    ∀ n : Nat, allPlain (natToCharsCore fuel n) = true := by
  induction fuel with
  | zero => intro n; rfl
  | succ fuel ih =>
    intro n
    unfold natToCharsCore
    split
    · rfl
    · simp only [allPlain, List.all_append, Bool.and_eq_true]
      refine ⟨ih (n / 10), ?_⟩
      simp [plainChar_digitChar]

theorem allPlain_natToChars (n : Nat) : allPlain (natToChars n) = true := by
  unfold natToChars
  split
  · rfl
  · exact allPlain_natToCharsCore n n

theorem natToChars_ne_nil (n : Nat) : natToChars n ≠ [] := by
  unfold natToChars
  split
  · simp
  · rename_i h
    obtain ⟨m, rfl⟩ := Nat.exists_eq_succ_of_ne_zero h
    unfold natToCharsCore
    simp [h]

theorem allPlain_trimZeros (l : List Char) (h : allPlain l = true) :
    allPlain (trimZeros l) = true := by
  simp only [allPlain, List.all_eq_true] at h ⊢
  intro c hc
  apply h
  unfold trimZeros at hc
  rw [List.mem_reverse] at hc
  have := List.dropWhile_sublist (l := l.reverse) (p := fun c => c = '0')
  have hmem := this.subset hc
  rwa [List.mem_reverse] at hmem

theorem allPlain_frDigits (a b c : Nat) :
    allPlain (trimZeros [digitChar a, digitChar b, digitChar c]) = true := by
  apply allPlain_trimZeros
  simp [allPlain, plainChar_digitChar]

theorem noTwoAdjacent_cons_allNot (p : Char → Bool) (x : Char) (l : List Char)
    (h : l.all (fun c => !p c) = true) : noTwoAdjacent p (x :: l) = true := by
  cases l with
  | nil => rfl
  | cons c l2 =>
    have hc : p c = false := by
      simp only [List.all_cons, Bool.and_eq_true] at h
      simpa using h.1
    simp [noTwoAdjacent, hc, noTwoAdjacent_of_allNot p (c :: l2) h]

theorem getLast?_all (q : Char → Bool) (l : List Char) (x : Char)
    (h : l.all q = true) (hx : l.getLast? = some x) : q x = true := by
  have hmem : x ∈ l := by
    obtain ⟨hne, hx2⟩ := List.mem_getLast?_eq_getLast (Option.mem_def.mpr hx)
    exact hx2 ▸ List.getLast_mem hne
  exact (List.all_eq_true.mp h) x hmem

theorem noSpace_of_allPlain (l : List Char) (h : allPlain l = true) :
    noSpace l = true := by
  simp only [allPlain, noSpace, List.all_eq_true] at h ⊢
  intro c hc
  simpa using (plainChar_split c (h c hc)).2.2

theorem allNotOp_of_allPlain (l : List Char) (h : allPlain l = true) :
    l.all (fun c => !isOpChar c) = true := by
  simp only [allPlain, List.all_eq_true] at h ⊢
  intro c hc
  simpa using (plainChar_split c (h c hc)).1

theorem allNotDot_of_allPlain (l : List Char) (h : allPlain l = true) :
    l.all (fun c => !isDotChar c) = true := by
  simp only [allPlain, List.all_eq_true] at h ⊢
  intro c hc
  simpa using (plainChar_split c (h c hc)).2.1

theorem headOK_of_allPlain (l : List Char) (h : allPlain l = true) :
    headOK l = true := by
  cases l with
  | nil => rfl
  | cons c l2 =>
    simp only [allPlain, List.all_cons, Bool.and_eq_true] at h
    have := (plainChar_split c h.1).1
    simp only [headOK, Bool.not_eq_true']
    by_contra hc
    rw [Bool.not_eq_false] at hc
    rw [hardOpChar_of_isOpChar c hc] at this
    exact Bool.true_eq_false.mp this

theorem dispInv_of_components (l : List Char) (h1 : headOK l = true)
    (h2 : noTwoAdjacent isOpChar l = true) (h3 : noTwoAdjacent isDotChar l = true)
    (h4 : noSpace l = true) : dispInv l = true := by
  simp [dispInv, specExprInvariantAmended, h1, h2, h3, h4]

theorem headOK_cons (c : Char) (l : List Char) : headOK (c :: l) = !hardOpChar c := rfl

theorem headOK_head_plain (c : Char) (l : List Char) (h : plainChar c = true) :
    headOK (c :: l) = true := by
  rw [headOK_cons]
  have h1 := (plainChar_split c h).1
  cases hh : hardOpChar c
  · rfl
  · rw [hardOpChar_of_isOpChar c hh] at h1
    cases h1

theorem noSpace_append (l1 l2 : List Char) :
    noSpace (l1 ++ l2) = (noSpace l1 && noSpace l2) := by
  simp [noSpace, List.all_append]

theorem noSpace_cons (c : Char) (l : List Char) :
    noSpace (c :: l) = (!isSpaceChar c && noSpace l) := by
  simp [noSpace]

theorem dispInv_shape (sgn ipc fd frac : List Char)
    (hsgn : sgn = [] ∨ sgn = ['-'])
    (hip : allPlain ipc = true) (hipne : ipc ≠ [])
    (hfd : allPlain fd = true)
    (hfrac : frac = [] ∨ frac = '.' :: fd) :
    dispInv (sgn ++ ipc ++ frac) = true := by
  have hipOp := allNotOp_of_allPlain ipc hip
  have hipDot := allNotDot_of_allPlain ipc hip
  have hfdOp := allNotOp_of_allPlain fd hfd
  have hfdDot := allNotDot_of_allPlain fd hfd
  have hipSp := noSpace_of_allPlain ipc hip
  have hOp1 : noTwoAdjacent isOpChar ipc = true := noTwoAdjacent_of_allNot _ _ hipOp
  have hDot1 : noTwoAdjacent isDotChar ipc = true := noTwoAdjacent_of_allNot _ _ hipDot
  obtain ⟨c, l2, rfl⟩ : ∃ c l2, ipc = c :: l2 := by
    cases ipc with
    | nil => exact absurd rfl hipne
    | cons c l2 => exact ⟨c, l2, rfl⟩
  have hcPlain : plainChar c = true := by
    simp only [allPlain, List.all_cons, Bool.and_eq_true] at hip
    exact hip.1
  rcases hsgn with rfl | rfl <;> rcases hfrac with rfl | rfl
  · rw [List.nil_append, List.append_nil]
    exact dispInv_of_components _ (headOK_head_plain c l2 hcPlain) hOp1 hDot1 hipSp
  · rw [List.nil_append]
    refine dispInv_of_components _ ?_ ?_ ?_ ?_
    · rw [List.cons_append]
      exact headOK_head_plain c _ hcPlain
    · refine noTwoAdjacent_append_allNot _ _ _ hOp1 ?_
      simp only [List.all_cons, Bool.and_eq_true]
      exact ⟨by decide, hfdOp⟩
    · have h1 : noTwoAdjacent isDotChar ((c :: l2) ++ ['.']) = true := by
        refine noTwoAdjacent_append_one _ _ _ hDot1 ?_
        intro x hx
        have := getLast?_all _ _ _ hipDot hx
        simp only [Bool.not_eq_true'] at this
        simp [this]
      have h2 := noTwoAdjacent_append_allNot _ _ fd h1 hfdDot
      simpa using h2
    · rw [noSpace_append, hipSp, noSpace_cons]
      have := noSpace_of_allPlain fd hfd
      rw [this]
      decide
  · rw [List.append_nil, List.singleton_append]
    refine dispInv_of_components _ (by rw [headOK_cons]; decide) ?_ ?_ ?_
    · exact noTwoAdjacent_cons_allNot _ _ _ hipOp
    · refine noTwoAdjacent_of_allNot _ _ ?_
      simp only [List.all_cons, Bool.and_eq_true]
      refine ⟨by decide, ?_⟩
      simp only [List.all_cons, Bool.and_eq_true] at hipDot ⊢
      exact hipDot
    · rw [noSpace_cons, hipSp]
      decide
  · rw [List.singleton_append]
    refine dispInv_of_components _ (by rw [List.cons_append, headOK_cons]; decide) ?_ ?_ ?_
    · rw [List.cons_append]
      refine noTwoAdjacent_cons_allNot _ _ _ ?_
      have h1 : (!isOpChar '.') = true := by decide
      simp only [List.cons_append, List.all_cons, List.all_append, Bool.and_eq_true] at hipOp ⊢
      tauto
    · have hbase : noTwoAdjacent isDotChar ('-' :: c :: l2) = true :=
        noTwoAdjacent_cons_allNot _ _ _ hipDot
      have h1 : noTwoAdjacent isDotChar (('-' :: c :: l2) ++ ['.']) = true := by
        refine noTwoAdjacent_append_one _ _ _ hbase ?_
        intro x hx
        rw [show ('-' :: c :: l2) = ['-'] ++ (c :: l2) from rfl,
          List.getLast?_append_of_ne_nil _ (by simp)] at hx
        have := getLast?_all _ _ _ hipDot hx
        simp only [Bool.not_eq_true'] at this
        simp [this]
      have h2 := noTwoAdjacent_append_allNot _ _ fd h1 hfdDot
      simpa using h2
    · rw [noSpace_append, noSpace_cons, hipSp, noSpace_cons]
      have := noSpace_of_allPlain fd hfd
      rw [this]
      decide

theorem dispInv_thousandths (m : ℤ) : dispInv (thousandthsToChars m) = true := by
  have h := dispInv_shape (if m < 0 then ['-'] else [])
    (natToChars (m.natAbs / 1000))
    (trimZeros [digitChar (m.natAbs % 1000 / 100), digitChar (m.natAbs % 1000 / 10 % 10),
      digitChar (m.natAbs % 1000 % 10)])
    (if (trimZeros [digitChar (m.natAbs % 1000 / 100), digitChar (m.natAbs % 1000 / 10 % 10),
      digitChar (m.natAbs % 1000 % 10)]).isEmpty then []
     else '.' :: trimZeros [digitChar (m.natAbs % 1000 / 100), digitChar (m.natAbs % 1000 / 10 % 10),
      digitChar (m.natAbs % 1000 % 10)])
    (by split <;> simp)
    (allPlain_natToChars _) (natToChars_ne_nil _) (allPlain_frDigits _ _ _)
    (by split <;> simp)
  simpa [thousandthsToChars] using h

theorem dispInv_numToChars (q : ℚ) : dispInv (numToChars q) = true :=
  dispInv_thousandths (round3 q)

theorem dispInv_nil : dispInv [] = true := by decide

theorem dispInv_error : dispInv "Error".data = true := by decide

theorem all_dropLast (q : Char → Bool) (d : List Char) (h : d.all q = true) :
    d.dropLast.all q = true := by
  simp only [List.all_eq_true] at h ⊢
  intro c hc
  exact h c ((List.dropLast_sublist d).subset hc)

theorem headOK_dropLast (d : List Char) (h : headOK d = true) :
    headOK d.dropLast = true := by
  cases d with
  | nil => rfl
  | cons a rest =>
    cases rest with
    | nil => rfl
    | cons b r2 =>
      rw [List.dropLast_cons₂]
      rw [headOK_cons] at h ⊢
      exact h

theorem dispInv_dropLast (d : List Char) (h : dispInv d = true) :
    dispInv d.dropLast = true := by
  simp only [dispInv, specExprInvariantAmended, Bool.and_eq_true] at h
  exact dispInv_of_components _ (headOK_dropLast d h.1.1.1)
    (noTwoAdjacent_dropLast _ _ h.1.1.2) (noTwoAdjacent_dropLast _ _ h.1.2)
    (all_dropLast _ _ h.2)

theorem sepHere_cons_of_ne (c : Char) (l : List Char) (h : isSpaceChar c = false) :
    sepHere (c :: l) = false := by
  have hc : ¬(c = ' ') := by simpa [isSpaceChar] using h
  match l with
  | [] => rfl
  | [b] => rfl
  | b :: e :: l3 => simp [sepHere, hc]

theorem splitFirst_marker (d rest : List Char) (hd : noSpace d = true) :
    splitFirst (d ++ ' ' :: '=' :: ' ' :: rest) = d := by
  induction d with
  | nil => rfl
  | cons c d2 ih =>
    simp only [noSpace, List.all_cons, Bool.and_eq_true, Bool.not_eq_true'] at hd
    have h1 := sepHere_cons_of_ne c (d2 ++ ' ' :: '=' :: ' ' :: rest) hd.1
    rw [List.cons_append]
    simp only [splitFirst, h1, Bool.false_eq_true, if_false, List.cons.injEq]
    exact ⟨trivial, ih (by simp only [noSpace]; exact hd.2)⟩

theorem opChar_not_dot_space (c : Char) (h : isOpChar c = true) :
    isDotChar c = false ∧ isSpaceChar c = false := by
  simp only [isOpChar, List.mem_cons, decide_eq_true_eq, List.not_mem_nil, or_false] at h
  rcases h with rfl | rfl | rfl | rfl | rfl <;> exact ⟨rfl, rfl⟩

theorem dispInv_append_plain (d t : List Char) (hd : dispInv d = true)
    (ht : allPlain t = true) : dispInv (d ++ t) = true := by
  simp only [dispInv, specExprInvariantAmended, Bool.and_eq_true] at hd
  refine dispInv_of_components _ ?_ ?_ ?_ ?_
  · cases d with
    | nil => rw [List.nil_append]; exact headOK_of_allPlain t ht
    | cons a rest => rw [List.cons_append, headOK_cons]; rw [headOK_cons] at hd; exact hd.1.1.1
  · exact noTwoAdjacent_append_allNot _ _ _ hd.1.1.2 (allNotOp_of_allPlain t ht)
  · exact noTwoAdjacent_append_allNot _ _ _ hd.1.2 (allNotDot_of_allPlain t ht)
  · rw [noSpace_append, hd.2, noSpace_of_allPlain t ht]
    rfl

theorem dispInv_append_op (d : List Char) (c : Char) (hd : dispInv d = true)
    (hop : isOpChar c = true) (hne : d ≠ [])
    (hlast : isOperator (sliceLast d) = false) : dispInv (d ++ [c]) = true := by
  simp only [dispInv, specExprInvariantAmended, Bool.and_eq_true] at hd
  refine dispInv_of_components _ ?_ ?_ ?_ ?_
  · cases d with
    | nil => exact absurd rfl hne
    | cons a rest => rw [List.cons_append, headOK_cons]; rw [headOK_cons] at hd; exact hd.1.1.1
  · refine noTwoAdjacent_append_one _ _ _ hd.1.1.2 ?_
    intro x hx
    rw [sliceLast_of_getLast? d x hx, isOperator_singleton] at hlast
    rw [hlast]
    rfl
  · refine noTwoAdjacent_append_allNot _ _ _ hd.1.2 ?_
    simp [(opChar_not_dot_space c hop).1]
  · rw [noSpace_append, hd.2]
    simp [noSpace, (opChar_not_dot_space c hop).2]

theorem dispInv_append_dot (d : List Char) (hd : dispInv d = true)
    (hlast : endsWithDot d = false) : dispInv (d ++ ['.']) = true := by
  simp only [dispInv, specExprInvariantAmended, Bool.and_eq_true] at hd
  refine dispInv_of_components _ ?_ ?_ ?_ ?_
  · cases d with
    | nil => decide
    | cons a rest => rw [List.cons_append, headOK_cons]; rw [headOK_cons] at hd; exact hd.1.1.1
  · refine noTwoAdjacent_append_allNot _ _ _ hd.1.1.2 (by decide)
  · refine noTwoAdjacent_append_one _ _ _ hd.1.2 ?_
    intro x hx
    simp only [endsWithDot, decide_eq_false_iff_not] at hlast
    rw [sliceLast_of_getLast? d x hx] at hlast
    have hx2 : ¬(x = '.') := by
      intro h
      exact hlast (by rw [h])
    simp [isDotChar, hx2]
  · rw [noSpace_append, hd.2]
    decide

theorem handleButton_AC (ev : List Char → Option ℚ) (s : CalcState) :
    handleButton ev s "AC".data = { s with showResult := false, display := [] } := rfl

theorem handleButton_C (ev : List Char → Option ℚ) (s : CalcState) :
    handleButton ev s "C".data =
      { s with showResult := false, display := s.display.dropLast } := rfl

theorem handleButton_eqKey (ev : List Char → Option ℚ) (s : CalcState) :
    handleButton ev s "=".data = calculateResult ev { s with showResult := false } := rfl

theorem handleButton_sqrt (ev : List Char → Option ℚ) (s : CalcState) :
    handleButton ev s "√".data =
      { s with showResult := false, display := s.display ++ "sqrt(".data } := rfl

theorem handleButton_trig (ev : List Char → Option ℚ) (s : CalcState) (v : List Char)
    (h : v ∈ ["sin".data, "cos".data, "tan".data]) :
    handleButton ev s v =
      { s with showResult := false, display := s.display ++ v ++ "(".data } := by
  simp only [List.mem_cons, List.not_mem_nil, or_false] at h
  rcases h with rfl | rfl | rfl <;> rfl

theorem handleButton_paren (ev : List Char → Option ℚ) (s : CalcState) (v : List Char)
    (h : v ∈ ["(".data, ")".data]) :
    handleButton ev s v =
      { s with showResult := false, display := s.display ++ v } := by
  simp only [List.mem_cons, List.not_mem_nil, or_false] at h
  rcases h with rfl | rfl <;> rfl

theorem handleButton_op (ev : List Char → Option ℚ) (s : CalcState) (v : List Char)
    (h : isOperator v = true) :
    handleButton ev s v =
      if s.display = [] ∨ isOperator (sliceLast s.display) then
        { s with showResult := false }
      else
        { s with showResult := false, display := s.display ++ v } := by
  simp only [isOperator, List.mem_cons, List.not_mem_nil, or_false,
    decide_eq_true_eq] at h
  rcases h with rfl | rfl | rfl | rfl | rfl <;> rfl

theorem handleButton_dot (ev : List Char → Option ℚ) (s : CalcState) :
    handleButton ev s ".".data =
      if endsWithDot s.display then
        { s with showResult := false }
      else
        { s with showResult := false, display := s.display ++ ".".data } := rfl

theorem handleButton_digit (ev : List Char → Option ℚ) (s : CalcState) (v : List Char)
    (h : v ∈ ["0".data, "1".data, "2".data, "3".data, "4".data, "5".data,
      "6".data, "7".data, "8".data, "9".data]) :
    handleButton ev s v =
      { s with showResult := false, display := s.display ++ v } := by
  simp only [List.mem_cons, List.not_mem_nil, or_false] at h
  rcases h with rfl | rfl | rfl | rfl | rfl | rfl | rfl | rfl | rfl | rfl <;> rfl

theorem calculateResult_empty (ev : List Char → Option ℚ) (s : CalcState)
    (h : s.display = []) : calculateResult ev s = s := by
  unfold calculateResult
  rw [if_neg]
  simp [h]

theorem calculateResult_some (ev : List Char → Option ℚ) (s : CalcState) (r : ℚ)
    (hne : s.display ≠ []) (hr : ev s.display = some r) :
    calculateResult ev s =
      { s with
        history := s.history ++ [s.display ++ " = ".data ++ numToChars r]
        display := numToChars r
        showResult := true } := by
  unfold calculateResult
  rw [if_pos (by simp [hne]), hr]

theorem calculateResult_none (ev : List Char → Option ℚ) (s : CalcState)
    (hne : s.display ≠ []) (hr : ev s.display = none) :
    calculateResult ev s = { s with display := "Error".data } := by
  unfold calculateResult
  rw [if_pos (by simp [hne]), hr]

theorem stateInv_partialEffect (ev : List Char → Option ℚ) (t : CalcState)
    (h : StateInv t) : StateInv (partialEffect ev t) := by
  constructor
  · rw [partialEffect_display]
    exact h.1
  · rw [partialEffect_history]
    exact h.2

theorem stateInv_calculateResult (ev : List Char → Option ℚ) (t : CalcState)
    (h : StateInv t) : StateInv (calculateResult ev t) := by
  by_cases hne : t.display = []
  · rw [calculateResult_empty ev t hne]
    exact h
  · cases hev : ev t.display with
    | none =>
      rw [calculateResult_none ev t hne hev]
      exact ⟨dispInv_error, h.2⟩
    | some r =>
      rw [calculateResult_some ev t r hne hev]
      refine ⟨dispInv_numToChars r, ?_⟩
      intro item hitem
      rcases List.mem_append.mp hitem with h1 | h2
      · exact h.2 item h1
      · have heq : item = t.display ++ " = ".data ++ numToChars r := by simpa using h2
        subst heq
        have hsp : noSpace t.display = true := by
          have h1 := h.1
          simp only [dispInv, Bool.and_eq_true] at h1
          exact h1.2
        rw [List.append_assoc]
        rw [show " = ".data ++ numToChars r = ' ' :: '=' :: ' ' :: numToChars r from rfl]
        rw [splitFirst_marker _ _ hsp]
        exact h.1

theorem stateInv_handleButton (ev : List Char → Option ℚ) (s : CalcState)
    (v : List Char) (hv : v ∈ keypad) (ih : StateInv s) :
    StateInv (handleButton ev s v) := by
  have hd := ih.1
  have hh := ih.2
  simp only [keypad, List.mem_cons, List.not_mem_nil, or_false] at hv
  have opcase : ∀ c : Char, v = [c] → isOpChar c = true →
      StateInv (handleButton ev s v) := by
    intro c hvc hc
    subst hvc
    rw [handleButton_op ev s [c] (by rw [isOperator_singleton]; exact hc)]
    by_cases hcond : s.display = [] ∨ isOperator (sliceLast s.display)
    · rw [if_pos hcond]
      exact ⟨hd, hh⟩
    · rw [if_neg hcond]
      push_neg at hcond
      have hop : isOperator (sliceLast s.display) = false :=
        Bool.not_eq_true _ ▸ hcond.2
      exact ⟨dispInv_append_op _ c hd hc hcond.1 hop, hh⟩
  have digitcase : ∀ c : Char, v = [c] → plainChar c = true →
      handleButton ev s v = { s with showResult := false, display := s.display ++ v } →
      StateInv (handleButton ev s v) := by
    intro c hvc hc heq
    rw [heq]
    refine ⟨?_, hh⟩
    subst hvc
    exact dispInv_append_plain _ _ hd (by simp [allPlain, hc])
  rcases hv with rfl | rfl | rfl | rfl | rfl | rfl | rfl | rfl | rfl | rfl | rfl | rfl |
    rfl | rfl | rfl | rfl | rfl | rfl | rfl | rfl | rfl | rfl | rfl | rfl | rfl
  · rw [handleButton_AC]
    exact ⟨dispInv_nil, hh⟩
  · rw [handleButton_C]
    exact ⟨dispInv_dropLast _ hd, hh⟩
  · exact opcase '%' rfl (by decide)
  · exact opcase '/' rfl (by decide)
  · rw [handleButton_trig ev s _ (by decide)]
    refine ⟨?_, hh⟩
    rw [List.append_assoc]
    exact dispInv_append_plain _ _ hd (by decide)
  · rw [handleButton_trig ev s _ (by decide)]
    refine ⟨?_, hh⟩
    rw [List.append_assoc]
    exact dispInv_append_plain _ _ hd (by decide)
  · rw [handleButton_trig ev s _ (by decide)]
    refine ⟨?_, hh⟩
    rw [List.append_assoc]
    exact dispInv_append_plain _ _ hd (by decide)
  · rw [handleButton_sqrt]
    exact ⟨dispInv_append_plain _ _ hd (by decide), hh⟩
  · rw [handleButton_paren ev s _ (by decide)]
    exact ⟨dispInv_append_plain _ _ hd (by decide), hh⟩
  · rw [handleButton_paren ev s _ (by decide)]
    exact ⟨dispInv_append_plain _ _ hd (by decide), hh⟩
  · exact opcase '*' rfl (by decide)
  · exact opcase '-' rfl (by decide)
  · exact opcase '+' rfl (by decide)
  · rw [handleButton_dot]
    by_cases hcond : endsWithDot s.display = true
    · rw [if_pos hcond]
      exact ⟨hd, hh⟩
    · rw [if_neg hcond]
      have hdot : endsWithDot s.display = false := Bool.not_eq_true _ ▸ hcond
      exact ⟨dispInv_append_dot _ hd hdot, hh⟩
  · rw [handleButton_eqKey]
    exact stateInv_calculateResult ev _ ⟨hd, hh⟩
  · exact digitcase '0' rfl (by decide) (handleButton_digit ev s _ (by decide))
  · exact digitcase '1' rfl (by decide) (handleButton_digit ev s _ (by decide))
  · exact digitcase '2' rfl (by decide) (handleButton_digit ev s _ (by decide))
  · exact digitcase '3' rfl (by decide) (handleButton_digit ev s _ (by decide))
  · exact digitcase '4' rfl (by decide) (handleButton_digit ev s _ (by decide))
  · exact digitcase '5' rfl (by decide) (handleButton_digit ev s _ (by decide))
  · exact digitcase '6' rfl (by decide) (handleButton_digit ev s _ (by decide))
  · exact digitcase '7' rfl (by decide) (handleButton_digit ev s _ (by decide))
  · exact digitcase '8' rfl (by decide) (handleButton_digit ev s _ (by decide))
  · exact digitcase '9' rfl (by decide) (handleButton_digit ev s _ (by decide))

theorem stateInv_reachable (ev : List Char → Option ℚ) (s : CalcState)
    (h : Reachable ev s) : StateInv s := by
  induction h with
  | init =>
    refine ⟨by decide, ?_⟩
    intro item hitem
    simp [initState] at hitem
  | key hr hv ih =>
    exact stateInv_partialEffect _ _ (stateInv_handleButton _ _ _ hv ih)
  | histClick hr hitem ih =>
    refine stateInv_partialEffect _ _ ⟨ih.2 _ hitem, ih.2⟩

/-- Claim C1: for every non-empty Expression on which the external
evaluator succeeds, finalize() (calculateResult) rounds the numeric
result to 3 decimal places, appends the record "Expression = result"
at the end of History, sets Expression to the rounded result's string
form, and sets the result flag (DisplayMode = RESULT).  The witness
instantiates this on Expression "50+2" with an evaluator that, like
mathjs, returns 52, yielding Expression "52" and the appended record
"50+2 = 52". -/
theorem claim1_finalize_success (ev : List Char → Option ℚ) (s : CalcState) (r : ℚ)
    (hne : s.display ≠ []) (hev : ev s.display = some r) :
    calculateResult ev s =
      { s with
        history := s.history ++ [s.display ++ " = ".data ++ numToChars r]
        display := numToChars r
        showResult := true } :=
  calculateResult_some ev s r hne hev

/-- Witness for C1: finalize() on Expression "50+2" with evaluator
value 52 yields Expression "52", the result flag set, and History
extended with the record "50+2 = 52". -/
theorem claim1_finalize_success_witness :
    (⟨false, "50+2".data, [], []⟩ : CalcState).display ≠ [] ∧
    evA "50+2".data = some 52 ∧
    calculateResult evA ⟨false, "50+2".data, [], []⟩ =
      ⟨true, "52".data, ["50+2 = 52".data], []⟩ := by
  refine ⟨by decide, rfl, ?_⟩
  rw [claim1_finalize_success evA ⟨false, "50+2".data, [], []⟩ 52 (by decide) rfl]
  decide

/-- Claim C2: for every non-empty Expression on which the external
evaluator fails, pressing "=" sets Expression to the literal string
"Error", leaves History unchanged, and leaves the result flag false
(DisplayMode stays EDITING).  The model is a total function, so the
failure is never propagated as a crash. -/
theorem claim2_finalize_failure (ev : List Char → Option ℚ) (s : CalcState)
    (hne : s.display ≠ []) (hev : ev s.display = none) :
    (pressKey ev s "=".data).display = "Error".data ∧
    (pressKey ev s "=".data).history = s.history ∧
    (pressKey ev s "=".data).showResult = false := by
  unfold pressKey
  rw [partialEffect_display, partialEffect_history, partialEffect_showResult,
    handleButton_eqKey,
    calculateResult_none ev { s with showResult := false } hne hev]
  exact ⟨rfl, rfl, rfl⟩

/-- Witness for C2: pressing "=" on Expression "50+" (the evaluator
fails on it) yields Expression "Error", unchanged History and the
editing mode. -/
theorem claim2_finalize_failure_witness :
    (⟨false, "50+".data, [], []⟩ : CalcState).display ≠ [] ∧
    evA "50+".data = none ∧
    ((pressKey evA ⟨false, "50+".data, [], []⟩ "=".data).display = "Error".data ∧
     (pressKey evA ⟨false, "50+".data, [], []⟩ "=".data).history = [] ∧
     (pressKey evA ⟨false, "50+".data, [], []⟩ "=".data).showResult = false) :=
  ⟨by decide, rfl, claim2_finalize_failure evA ⟨false, "50+".data, [], []⟩ (by decide) rfl⟩

/-- Claim C5: for every state and every binary-operator key, the press
appends the operator character to the Expression exactly when the
Expression is non-empty and its last character is not itself a binary
operator; otherwise the Expression is unchanged (the press is silently
ignored, not an error). -/
theorem claim5_operator_gating (ev : List Char → Option ℚ) (s : CalcState)
    (v : List Char) (h : isOperator v = true) :
    (handleButton ev s v).display =
      if s.display ≠ [] ∧ isOperator (sliceLast s.display) = false
      then s.display ++ v else s.display := by
  rw [handleButton_op ev s v h]
  by_cases hcond : s.display = [] ∨ isOperator (sliceLast s.display)
  · have hnot : ¬(s.display ≠ [] ∧ isOperator (sliceLast s.display) = false) := by
      rintro ⟨hne2, hop2⟩
      rcases hcond with h1 | h1
      · exact hne2 h1
      · rw [h1] at hop2
        cases hop2
    rw [if_pos hcond, if_neg hnot]
  · have hyes : s.display ≠ [] ∧ isOperator (sliceLast s.display) = false := by
      push_neg at hcond
      exact ⟨hcond.1, Bool.not_eq_true _ ▸ hcond.2⟩
    rw [if_neg hcond, if_pos hyes]

/-- Witness for C5: pressing "+" on Expression "12" appends it, and
pressing "+" on the resulting "12+" (and on the empty Expression) is
ignored. -/
theorem claim5_operator_gating_witness :
    isOperator "+".data = true ∧
    (handleButton evA ⟨false, "12".data, [], []⟩ "+".data).display =
      (if ("12".data : List Char) ≠ [] ∧ isOperator (sliceLast "12".data) = false
       then "12".data ++ "+".data else "12".data) :=
  ⟨by decide, claim5_operator_gating evA ⟨false, "12".data, [], []⟩ "+".data (by decide)⟩

theorem handleButton_history (ev : List Char → Option ℚ) (s : CalcState)
    (v : List Char) :
    (handleButton ev s v).history = s.history ∨
      ∃ rec, (handleButton ev s v).history = s.history ++ [rec] := by
  unfold handleButton
  split_ifs
  all_goals try (exact Or.inl rfl)
  by_cases hne : s.display = []
  · rw [calculateResult_empty ev { s with showResult := false } hne]
    exact Or.inl rfl
  · cases hev : ev s.display with
    | none =>
      rw [calculateResult_none ev { s with showResult := false } hne hev]
      exact Or.inl rfl
    | some r =>
      rw [calculateResult_some ev { s with showResult := false } r hne hev]
      exact Or.inr ⟨_, rfl⟩

/-- Claim C8: History is append-only.  Every button press (any value,
including AC, C, rejected keys, and a failed finalization) leaves
History unchanged or extends it by exactly one record at the end, and
every history selection leaves it unchanged; the existing records are
never removed, modified or reordered. -/
theorem claim8_history_append_only (ev : List Char → Option ℚ) (s : CalcState) :
    (∀ v, (pressKey ev s v).history = s.history ∨
      ∃ rec, (pressKey ev s v).history = s.history ++ [rec]) ∧
    (∀ item, (selectHistory ev s item).history = s.history) := by
  constructor
  · intro v
    unfold pressKey
    rw [partialEffect_history]
    exact handleButton_history ev s v
  · intro item
    unfold selectHistory handleHistoryClick
    rw [partialEffect_history]

theorem handleButton_showResult_ne (ev : List Char → Option ℚ) (s : CalcState)
    (v : List Char) (h : v ≠ "=".data) :
    (handleButton ev s v).showResult = false := by
  unfold handleButton
  split_ifs <;> rfl

/-- Counterexample to claim C4 as stated: pressing a key while the
result is shown does not always return to editing mode.  From the
reachable RESULT state holding "52" (reached by pressing 5, 2, =),
pressing "=" again re-finalizes the displayed value successfully and
the state is again in RESULT mode, not EDITING. -/
theorem claim4_result_mode_counterexample :
    Reachable evA sRes ∧ sRes.showResult = true ∧
      (pressKey evA sRes "=".data).showResult = true := by
  refine ⟨?_, by decide, by decide⟩
  exact Reachable.key (Reachable.key (Reachable.key Reachable.init
    (by decide)) (by decide)) (by decide)

/-- Claim C4 (amended): every `apply` call first resets DisplayMode to
EDITING, so after any single key press (from any state, in particular
from a RESULT state) the DisplayMode is EDITING — unless the key is
"=" and the evaluator succeeds on the non-empty displayed expression,
in which case finalization sets DisplayMode back to RESULT. -/
theorem claim4_result_mode_amended (ev : List Char → Option ℚ) (s : CalcState)
    (v : List Char) :
    (pressKey ev s v).showResult =
      (decide (v = "=".data) && !s.display.isEmpty && (ev s.display).isSome) := by
  unfold pressKey
  rw [partialEffect_showResult]
  by_cases hv : v = "=".data
  · subst hv
    rw [handleButton_eqKey]
    by_cases hne : s.display = []
    · rw [calculateResult_empty ev { s with showResult := false } hne]
      simp [hne]
    · cases hev : ev s.display with
      | none =>
        rw [calculateResult_none ev { s with showResult := false } hne hev]
        simp [hev]
      | some r =>
        rw [calculateResult_some ev { s with showResult := false } r hne hev]
        have : s.display.isEmpty = false := by
          cases hd : s.display with
          | nil => exact absurd hd hne
          | cons a l => rfl
        simp [this, hev]
  · rw [handleButton_showResult_ne ev s v hv]
    simp [hv]

/-- Counterexample to claim C3 as stated: the spec invariant "the
Expression never starts with a binary operator" fails on reachable
states.  Pressing 1, -, 5, = (the evaluator, like mathjs, returns -4
on "1-5") finalizes the display to "-4", which starts with the binary
operator '-'. -/
theorem claim3_invariant_counterexample :
    Reachable evA sNeg ∧ specExprInvariant sNeg.display = false := by
  refine ⟨?_, by decide⟩
  exact Reachable.key (Reachable.key (Reachable.key (Reachable.key
    Reachable.init (by decide)) (by decide)) (by decide)) (by decide)

/-- Claim C3 (amended): for every reachable state — every sequence of
keypad presses and history selections starting from the empty
Expression — the Expression never contains two consecutive binary
operators, never contains two consecutive decimal points, and never
starts with a binary operator other than a minus sign introduced as
the sign of a negative finalized result. -/
theorem claim3_invariant_amended (ev : List Char → Option ℚ) (s : CalcState)
    (h : Reachable ev s) : specExprInvariantAmended s.display = true := by
  have h1 := (stateInv_reachable ev s h).1
  simp only [dispInv, Bool.and_eq_true] at h1
  exact h1.1

/-- Witness for the amended C3 at the reachable state obtained by
pressing 1, -, 5, =: its display "-4" satisfies the amended
invariant. -/
theorem claim3_invariant_amended_witness :
    specExprInvariantAmended sNeg.display = true :=
  claim3_invariant_amended evA sNeg
    (Reachable.key (Reachable.key (Reachable.key (Reachable.key
      Reachable.init (by decide)) (by decide)) (by decide)) (by decide))

theorem partialEffect_spec (ev : List Char → Option ℚ) (t : CalcState) :
    (partialEffect ev t).partialResult = specPartialValue ev (partialEffect ev t) := by
  cases h1 : t.display.isEmpty <;> cases h2 : t.showResult
  · cases hev : ev t.display <;>
      simp [partialEffect, specPartialValue, h1, h2, hev]
  · simp [partialEffect, specPartialValue, h1, h2]
  · simp [partialEffect, specPartialValue, h1, h2]
  · simp [partialEffect, specPartialValue, h1, h2]

/-- Claim C6: after every event (any key press and any history
selection), the stored PartialValue agrees with the spec-side derived
value: empty when DisplayMode is RESULT or the Expression is empty,
the evaluator's result rounded to 3 decimals when evaluation succeeds,
and empty when the evaluator fails (the failure is silently
suppressed).  In particular, typing 5, 0, + leaves the partial value
empty (the evaluator fails on "50+"), and then typing 2 makes it
"52". -/
theorem claim6_partial_value_sync :
    (∀ (ev : List Char → Option ℚ) (s : CalcState) (v : List Char),
      (pressKey ev s v).partialResult = specPartialValue ev (pressKey ev s v)) ∧
    (∀ (ev : List Char → Option ℚ) (s : CalcState) (item : List Char),
      (selectHistory ev s item).partialResult =
        specPartialValue ev (selectHistory ev s item)) ∧
    (List.foldl (pressKey evA) initState
      ["5".data, "0".data, "+".data]).partialResult = [] ∧
    (List.foldl (pressKey evA) initState
      ["5".data, "0".data, "+".data, "2".data]).partialResult = "52".data :=
  ⟨fun ev s v => partialEffect_spec ev (handleButton ev s v),
   fun ev s item => partialEffect_spec ev (handleHistoryClick s item),
   by decide, by decide⟩

/-- Claim C9: round-trip of finalization and history selection.  For
every reachable state whose non-empty Expression the evaluator
accepts, pressing "=" appends the single record
"Expression = result" to History, and clicking that record (from any
later state) restores the display to exactly the finalized
Expression and leaves result mode — the split at " = " is unambiguous
because no reachable Expression contains a space character. -/
theorem claim9_finalize_select_round_trip (ev : List Char → Option ℚ)
    (s : CalcState) (r : ℚ) (h : Reachable ev s) (hne : s.display ≠ [])
    (hev : ev s.display = some r) :
    (pressKey ev s "=".data).history =
      s.history ++ [s.display ++ " = ".data ++ numToChars r] ∧
    ∀ t : CalcState,
      (selectHistory ev t (s.display ++ " = ".data ++ numToChars r)).display =
        s.display ∧
      (selectHistory ev t (s.display ++ " = ".data ++ numToChars r)).showResult =
        false := by
  have hsp : noSpace s.display = true := by
    have h1 := (stateInv_reachable ev s h).1
    simp only [dispInv, Bool.and_eq_true] at h1
    exact h1.2
  constructor
  · unfold pressKey
    rw [partialEffect_history, handleButton_eqKey,
      calculateResult_some ev { s with showResult := false } r hne hev]
  · intro t
    unfold selectHistory handleHistoryClick
    rw [partialEffect_display, partialEffect_showResult]
    refine ⟨?_, rfl⟩
    show splitFirst (s.display ++ " = ".data ++ numToChars r) = s.display
    rw [List.append_assoc,
      show " = ".data ++ numToChars r = ' ' :: '=' :: ' ' :: numToChars r from rfl,
      splitFirst_marker _ _ hsp]

/-- Witness for C9: from the reachable state holding "50+2" (reached
by pressing 5, 0, +, 2), pressing "=" appends exactly the record
"50+2 = 52", and clicking that record restores the display to "50+2"
in editing mode. -/
theorem claim9_finalize_select_round_trip_witness :
    (pressKey evA s9 "=".data).history = ["50+2 = 52".data] ∧
    (selectHistory evA (pressKey evA s9 "=".data) "50+2 = 52".data).display =
      "50+2".data ∧
    (selectHistory evA (pressKey evA s9 "=".data) "50+2 = 52".data).showResult =
      false := by
  have h := claim9_finalize_select_round_trip evA s9 52
    (Reachable.key (Reachable.key (Reachable.key (Reachable.key
      Reachable.init (by decide)) (by decide)) (by decide)) (by decide))
    (by decide) (by decide)
  have hitem : s9.display ++ " = ".data ++ numToChars 52 = "50+2 = 52".data := by decide
  have h2 := h.2 (pressKey evA s9 "=".data)
  rw [hitem] at h2
  refine ⟨?_, h2.1.trans (by decide), h2.2⟩
  rw [h.1, hitem]
  decide

theorem pressEq_fail_display (ev : List Char → Option ℚ) (s : CalcState)
    (hne : s.display ≠ []) (hev : ev s.display = none) :
    (pressKey ev s "=".data).display = "Error".data := by
  unfold pressKey
  rw [partialEffect_display, handleButton_eqKey,
    calculateResult_none ev { s with showResult := false } hne hev]

theorem error_append (ev : List Char → Option ℚ) (t : CalcState) (v : List Char)
    (ht : t.display = "Error".data) (hv : v ∈ keypad)
    (hex : v ∉ ["AC".data, "C".data, "=".data]) :
    ∃ rest, rest ≠ [] ∧ (pressKey ev t v).display = "Error".data ++ rest := by
  unfold pressKey
  rw [partialEffect_display]
  simp only [keypad, List.mem_cons, List.not_mem_nil, or_false] at hv
  have hexAC : v ≠ "AC".data := fun h => hex (by simp [h])
  have hexC : v ≠ "C".data := fun h => hex (by simp [h])
  have hexEq : v ≠ "=".data := fun h => hex (by simp [h])
  have happend : ∀ t2 : List Char, t2 ≠ [] →
      handleButton ev t v = { t with showResult := false, display := t.display ++ t2 } →
      ∃ rest, rest ≠ [] ∧ (handleButton ev t v).display = "Error".data ++ rest := by
    intro t2 hne heq
    refine ⟨t2, hne, ?_⟩
    rw [heq]
    show t.display ++ t2 = "Error".data ++ t2
    rw [ht]
  have hopc : ∀ c : Char, v = [c] → isOpChar c = true →
      ∃ rest, rest ≠ [] ∧ (handleButton ev t v).display = "Error".data ++ rest := by
    intro c hvc hc
    subst hvc
    rw [handleButton_op ev t [c] (by rw [isOperator_singleton]; exact hc), ht,
      if_neg (by decide)]
    exact ⟨[c], by simp, rfl⟩
  rcases hv with rfl | rfl | rfl | rfl | rfl | rfl | rfl | rfl | rfl | rfl | rfl | rfl |
    rfl | rfl | rfl | rfl | rfl | rfl | rfl | rfl | rfl | rfl | rfl | rfl | rfl
  · exact absurd rfl hexAC
  · exact absurd rfl hexC
  · exact hopc '%' rfl (by decide)
  · exact hopc '/' rfl (by decide)
  · refine happend ("sin".data ++ "(".data) (by decide) ?_
    rw [handleButton_trig ev t _ (by decide), List.append_assoc]
  · refine happend ("cos".data ++ "(".data) (by decide) ?_
    rw [handleButton_trig ev t _ (by decide), List.append_assoc]
  · refine happend ("tan".data ++ "(".data) (by decide) ?_
    rw [handleButton_trig ev t _ (by decide), List.append_assoc]
  · exact happend "sqrt(".data (by decide) (handleButton_sqrt ev t)
  · exact happend "(".data (by decide) (handleButton_paren ev t _ (by decide))
  · exact happend ")".data (by decide) (handleButton_paren ev t _ (by decide))
  · exact hopc '*' rfl (by decide)
  · exact hopc '-' rfl (by decide)
  · exact hopc '+' rfl (by decide)
  · rw [handleButton_dot ev t, ht, if_neg (by decide)]
    exact ⟨['.'], by simp, rfl⟩
  · exact absurd rfl hexEq
  · exact happend "0".data (by decide) (handleButton_digit ev t _ (by decide))
  · exact happend "1".data (by decide) (handleButton_digit ev t _ (by decide))
  · exact happend "2".data (by decide) (handleButton_digit ev t _ (by decide))
  · exact happend "3".data (by decide) (handleButton_digit ev t _ (by decide))
  · exact happend "4".data (by decide) (handleButton_digit ev t _ (by decide))
  · exact happend "5".data (by decide) (handleButton_digit ev t _ (by decide))
  · exact happend "6".data (by decide) (handleButton_digit ev t _ (by decide))
  · exact happend "7".data (by decide) (handleButton_digit ev t _ (by decide))
  · exact happend "8".data (by decide) (handleButton_digit ev t _ (by decide))
  · exact happend "9".data (by decide) (handleButton_digit ev t _ (by decide))

/-- Claim C10: after a failed finalization the literal string "Error"
becomes the Expression and is not cleared automatically.  Every
appending keypad key (everything except AC, C and "=") concatenates
onto it — in particular pressing the digit 5 yields "Error5" — and
pressing "=" keeps "Error" when the evaluator rejects it (as mathjs
does), so only AC, C or a history selection remove it. -/
theorem claim10_error_persistence (ev : List Char → Option ℚ) (s : CalcState)
    (h1 : s.display ≠ []) (h2 : ev s.display = none) :
    (pressKey ev s "=".data).display = "Error".data ∧
    (∀ v, v ∈ keypad → v ∉ ["AC".data, "C".data, "=".data] →
      ∃ rest, rest ≠ [] ∧
        (pressKey ev (pressKey ev s "=".data) v).display = "Error".data ++ rest) ∧
    (pressKey ev (pressKey ev s "=".data) "5".data).display = "Error5".data ∧
    (ev "Error".data = none →
      (pressKey ev (pressKey ev s "=".data) "=".data).display = "Error".data) := by
  have hE := pressEq_fail_display ev s h1 h2
  refine ⟨hE, ?_, ?_, ?_⟩
  · intro v hv hex
    exact error_append ev _ v hE hv hex
  · have h5 : (pressKey ev (pressKey ev s "=".data) "5".data).display =
        (pressKey ev s "=".data).display ++ "5".data := by
      unfold pressKey
      rw [partialEffect_display, handleButton_digit ev _ _ (by decide),
        partialEffect_display]
    rw [h5, hE]
    rfl
  · intro hErr
    exact pressEq_fail_display ev _ (by rw [hE]; decide) (by rw [hE]; exact hErr)

/-- Witness for C10: finalizing "50+" fails and shows "Error";
pressing 5 then yields "Error5", and pressing "=" keeps "Error". -/
theorem claim10_error_persistence_witness :
    (pressKey evA ⟨false, "50+".data, [], []⟩ "=".data).display = "Error".data ∧
    (pressKey evA (pressKey evA ⟨false, "50+".data, [], []⟩ "=".data)
      "5".data).display = "Error5".data ∧
    (pressKey evA (pressKey evA ⟨false, "50+".data, [], []⟩ "=".data)
      "=".data).display = "Error".data := by
  have h := claim10_error_persistence evA ⟨false, "50+".data, [], []⟩ (by decide) rfl
  exact ⟨h.1, h.2.2.1, h.2.2.2 rfl⟩

theorem specLastIsOperator_eq (acc : List Char) :
    specLastIsOperator acc = isOperator (sliceLast acc) := by
  unfold specLastIsOperator
  cases hacc : acc.getLast? with
  | none =>
    have : acc = [] := List.getLast?_eq_none_iff.mp hacc
    subst this
    rfl
  | some c =>
    rw [sliceLast_of_getLast? acc c hacc, isOperator_singleton]

theorem specAccepts_dot (acc : List Char) :
    specAccepts acc ".".data = !endsWithDot acc := by
  unfold specAccepts
  rw [if_neg (by decide), if_pos rfl]
  cases hacc : acc.getLast? with
  | none =>
    have : acc = [] := List.getLast?_eq_none_iff.mp hacc
    subst this
    rfl
  | some c =>
    unfold endsWithDot
    rw [sliceLast_of_getLast? acc c hacc]
    by_cases hc : c = '.' <;> simp [isDotChar, hc]

theorem specAccepts_op_iff (acc v : List Char) (hop : isOperator v = true) :
    specAccepts acc v = true ↔
      ¬(acc = [] ∨ isOperator (sliceLast acc) = true) := by
  unfold specAccepts
  rw [if_pos hop, specLastIsOperator_eq]
  constructor
  · intro h
    simp only [Bool.and_eq_true, Bool.not_eq_true'] at h
    rintro (h1 | h1)
    · subst h1
      simp at h
    · rw [h1] at h
      simp at h
  · intro h
    push_neg at h
    have h1 : acc.isEmpty = false := by
      cases acc with
      | nil => exact absurd rfl h.1
      | cons a l => rfl
    have h2 : isOperator (sliceLast acc) = false := Bool.not_eq_true _ ▸ h.2
    rw [h1, h2]
    rfl

theorem pressKey_specStep (ev : List Char → Option ℚ) (s : CalcState)
    (v : List Char) (hv : v ∈ appendingKeys) :
    (pressKey ev s v).display =
      if specAccepts s.display v then s.display ++ specKeyText v
      else s.display := by
  unfold pressKey
  rw [partialEffect_display]
  have hopcase : ∀ c : Char, isOperator [c] = true → specKeyText [c] = [c] →
      (handleButton ev s [c]).display =
        if specAccepts s.display [c] then s.display ++ specKeyText [c]
        else s.display := by
    intro c hc hkt
    rw [handleButton_op ev s [c] hc, hkt]
    by_cases hcond : s.display = [] ∨ isOperator (sliceLast s.display) = true
    · have hacc : ¬(specAccepts s.display [c] = true) := fun hs =>
        (specAccepts_op_iff s.display [c] hc).mp hs hcond
      rw [if_pos hcond, if_neg hacc]
    · have hacc : specAccepts s.display [c] = true :=
        (specAccepts_op_iff s.display [c] hc).mpr hcond
      rw [if_neg hcond, if_pos hacc]
  simp only [appendingKeys, List.mem_cons, List.not_mem_nil, or_false] at hv
  rcases hv with rfl | rfl | rfl | rfl | rfl | rfl | rfl | rfl | rfl | rfl | rfl |
    rfl | rfl | rfl | rfl | rfl | rfl | rfl | rfl | rfl | rfl | rfl
  · exact hopcase '%' (by decide) rfl
  · exact hopcase '/' (by decide) rfl
  · rw [handleButton_trig ev s _ (by decide), if_pos (show specAccepts s.display
      "sin".data = true from rfl)]
    show s.display ++ "sin".data ++ "(".data = s.display ++ specKeyText "sin".data
    rw [List.append_assoc]
    rfl
  · rw [handleButton_trig ev s _ (by decide), if_pos (show specAccepts s.display
      "cos".data = true from rfl)]
    show s.display ++ "cos".data ++ "(".data = s.display ++ specKeyText "cos".data
    rw [List.append_assoc]
    rfl
  · rw [handleButton_trig ev s _ (by decide), if_pos (show specAccepts s.display
      "tan".data = true from rfl)]
    show s.display ++ "tan".data ++ "(".data = s.display ++ specKeyText "tan".data
    rw [List.append_assoc]
    rfl
  · rw [handleButton_sqrt ev s, if_pos (show specAccepts s.display
      "√".data = true from rfl)]
    rfl
  · rw [handleButton_paren ev s _ (by decide), if_pos (show specAccepts s.display
      "(".data = true from rfl)]
    rfl
  · rw [handleButton_paren ev s _ (by decide), if_pos (show specAccepts s.display
      ")".data = true from rfl)]
    rfl
  · exact hopcase '*' (by decide) rfl
  · exact hopcase '-' (by decide) rfl
  · exact hopcase '+' (by decide) rfl
  · rw [handleButton_dot ev s]
    by_cases hdot : endsWithDot s.display = true
    · have hacc : specAccepts s.display ".".data = false := by
        rw [specAccepts_dot, hdot]
        rfl
      rw [if_pos hdot, if_neg (by simp [hacc])]
    · have hd2 : endsWithDot s.display = false := Bool.not_eq_true _ ▸ hdot
      have hacc : specAccepts s.display ".".data = true := by
        rw [specAccepts_dot, hd2]
        rfl
      rw [if_neg hdot, if_pos hacc]
      rfl
  all_goals
    rw [handleButton_digit ev s _ (by decide), if_pos (by exact rfl)]
    rfl

theorem foldl_pressKey_display (ev : List Char → Option ℚ) :
    ∀ (keys : List (List Char)) (s : CalcState),
      (∀ v ∈ keys, v ∈ appendingKeys) →
      (List.foldl (pressKey ev) s keys).display = specConcatFrom s.display keys := by
  intro keys
  induction keys with
  | nil => intro s _; rfl
  | cons v rest ih =>
    intro s hks
    have hv := hks v (List.mem_cons_self v rest)
    have hrest : ∀ u ∈ rest, u ∈ appendingKeys := fun u hu =>
      hks u (List.mem_cons_of_mem v hu)
    rw [List.foldl_cons, ih (pressKey ev s v) hrest, pressKey_specStep ev s v hv]
    rfl

/-- Counterexample to claim C7 as stated: the quantification over "every
sequence of key presses that never includes =" also admits the editing
keys AC and C, for which the claimed concatenation identity fails.
Pressing 5 then AC leaves the Expression empty, while the concatenation
of the accepted keys' appended texts is "5" (AC is not among the
enumerated rejected keys, and even under the most charitable reading it
appends no text rather than clearing). -/
theorem claim7_concat_counterexample :
    ¬ (∀ keys : List (List Char), (∀ v ∈ keys, v ∈ keypad) → "=".data ∉ keys →
      (List.foldl (pressKey evA) initState keys).display = specConcat keys) := by
  intro h
  have h2 := h ["5".data, "AC".data] (by decide) (by decide)
  exact absurd h2 (by decide)

/-- Claim C7 (amended): for every sequence of key presses that includes
none of "=", "AC" and "C", the resulting Expression equals the
concatenation of the texts appended by the accepted keys in order, with
rejected keys (a leading operator, a consecutive operator, a repeated
decimal point) omitted. -/
theorem claim7_concat_amended (ev : List Char → Option ℚ)
    (keys : List (List Char)) (h : ∀ v ∈ keys, v ∈ appendingKeys) :
    (List.foldl (pressKey ev) initState keys).display = specConcat keys := by
  rw [foldl_pressKey_display ev keys initState h]
  rfl

/-- Witness for the amended C7: pressing 5, 0, +, 2 yields the
Expression "50+2", the concatenation of the four accepted keys. -/
theorem claim7_concat_amended_witness :
    (List.foldl (pressKey evA) initState
      ["5".data, "0".data, "+".data, "2".data]).display =
      specConcat ["5".data, "0".data, "+".data, "2".data] :=
  claim7_concat_amended evA ["5".data, "0".data, "+".data, "2".data] (by decide)
